import Mathlib

/-!
Verification of the text-extraction pipeline of `Scripts/outlook_mapi.py`
(subject classification, HTML-to-text normalisation, regex triplet
extraction, and DataFrame assembly with deduplication).

Strings are modelled as `List Char`; the `String` wrappers convert via
`String.data`.  Character classes (`\s`, `\d`, `[A-Z]`) are modelled on
their ASCII meaning, which coincides with Python's on the ASCII inputs the
specification speaks about.
-/

namespace EskerVendor

/-- ASCII uppercase letter, the `[A-Z]` character class of `_TRIPLET_REGEX`. -/
def isUpper (c : Char) : Bool := 'A' ≤ c && c ≤ 'Z'

/-- ASCII digit, the `\d` character class of `_TRIPLET_REGEX` (on ASCII text). -/
def isDigitC (c : Char) : Bool := '0' ≤ c && c ≤ '9'

/-- Python's `\s` class / `str.strip()` whitespace, restricted to ASCII:
space, tab, newline, carriage return, vertical tab, form feed. -/
def isWs (c : Char) : Bool :=
  c == ' ' || c == '\t' || c == '\n' || c == '\r' || c == '\x0b' || c == '\x0c'

/-- ASCII lowering of one character, as `str.lower()` acts on ASCII. -/
def charLower (c : Char) : Char :=
  if isUpper c then Char.ofNat (c.toNat + 32) else c

/-- Lower-case a string (list of characters), as `str.lower()` on ASCII text. -/
def lowerL (l : List Char) : List Char := l.map charLower

/-- Python's substring test `p in l` on strings: `p` occurs contiguously in `l`. -/
def containsSub (l p : List Char) : Bool :=
  p.isPrefixOf l ||
    match l with
    | [] => false
    | _ :: t => containsSub t p

/-!  ## Subject Classifier — `subject_matches` (outlook_mapi.py lines 86–105)

```python
def subject_matches(subject, keywords=DEFAULT_SUBJECT_KEYWORDS,
                    phrases=DEFAULT_SUBJECT_PHRASES, min_keyword_hits=1):
    s = (subject or "").lower()
    for ph in phrases:
        if ph.lower() in s:
            return True
    hits = sum(1 for kw in keywords if kw.lower() in s)
    return hits >= min_keyword_hits
```
-/

/-- The `for ph in phrases: if ph.lower() in s: return True` loop. -/
def phraseLoop (s : List Char) : List (List Char) → Bool
  | [] => false
  | ph :: rest => if containsSub s (lowerL ph) then true else phraseLoop s rest

/-- `hits = sum(1 for kw in keywords if kw.lower() in s)`. -/
def kwHits (s : List Char) : List (List Char) → Nat
  | [] => 0
  | kw :: rest => (if containsSub s (lowerL kw) then 1 else 0) + kwHits s rest

/-- `subject_matches` body after the `(subject or "")` null-guard; the
threshold is an `Int`, as a Python `int` may be negative. -/
def subjectMatchesL (subject : List Char) (keywords phrases : List (List Char))
    (minKeywordHits : Int) : Bool :=
  let s := lowerL subject
  if phraseLoop s phrases then true
  else (kwHits s keywords : Int) ≥ minKeywordHits

/-- `subject_matches` on a `String` subject. -/
def subjectMatchesStr (subject : String) (keywords phrases : List String)
    (minKeywordHits : Int) : Bool :=
  subjectMatchesL subject.data (keywords.map String.data) (phrases.map String.data)
    minKeywordHits

/-- `subject_matches` on a possibly-null subject: `s = (subject or "").lower()`
treats `None` as the empty string. -/
def subjectMatchesOpt (subject : Option String) (keywords phrases : List String)
    (minKeywordHits : Int) : Bool :=
  subjectMatchesStr (subject.getD "") keywords phrases minKeywordHits

/-- `DEFAULT_SUBJECT_KEYWORDS = ["esker", "vendor", "update"]` (line 83). -/
def DEFAULT_SUBJECT_KEYWORDS : List String := ["esker", "vendor", "update"]

/-- `DEFAULT_SUBJECT_PHRASES = ["esker vendor update", "esker vendor"]` (line 84). -/
def DEFAULT_SUBJECT_PHRASES : List String := ["esker vendor update", "esker vendor"]

/-!  ## Triplet Extractor — `_TRIPLET_REGEX` / `extract_triplets_from_text`
(outlook_mapi.py lines 111–152)

```python
_TRIPLET_REGEX = re.compile(r"""
    (?P<company>[A-Z]{2}\d{2})  \s+  (?P<vendor>[^\s]{3,40})  \s+
    (?P<name>[^\r\n]+?)  (?=$|\r?\n)
    """, re.VERBOSE | re.MULTILINE)
```

Python's backtracking search reduces to the following:

* the first `\s+` must take the whole whitespace run — giving a whitespace
  character back would place it under `[^\s]`;
* `[^\s]{3,40}` greedy must take the whole non-whitespace run (a shorter
  take leaves a non-whitespace character under the following `\s+`), so a
  run longer than 40 fails the match;
* the second `\s+` is greedy with give-back: with `w` the length of the
  whitespace run after the vendor, the engine tries taking `k = w`
  characters first, then `w - 1`, …, down to `1`.  For each `k`, the name
  starts right after those `k` characters; the lazy `(?P<name>[^\r\n]+?)`
  stops at the first position where the look-ahead holds, which is the end
  of the `[^\r\n]` run starting there (interior positions are followed by
  a `[^\r\n]` character, where neither `$` (MULTILINE) nor `\r?\n` holds),
  so each attempt takes that whole run (which must be non-empty) and
  requires the look-ahead at its end.  The first `k` in this descending
  order that succeeds gives the match;
* the look-ahead `(?=$|\r?\n)` holds at end of string, before `\n`, and
  before `\r\n`; it fails before a lone `\r`, which the name cannot cross;
* the give-back on the second `\s+` matters when taking the whole run
  leaves no name: on `"AB12 123  "` the engine gives one space back and
  matches with the single-space name `" "` (stripped to `""` later), and
  a `\n` inside the run can likewise serve as the name's end of line, as
  in `"AB12 123 \t\nX\rY"`, matched with name `"\t"`.

This reading was validated against CPython's `re` on directed edge cases,
200k random inputs, and all 137k suffixes of length at most 6 over
`{' ', '\t', '\n', '\r', 'x', 'A', '1'}` appended to `"AB12 123"`.
-/

/-- `[^\r\n]`, the character class of the `name` group. -/
def notCRLF (c : Char) : Bool := c != '\r' && c != '\n'

/-- Last stage of a match attempt: second `\s+` already consumed, `r3` starts
the `name` group; checks the `(?=$|\r?\n)` look-ahead.  Returns the three raw
groups and the unconsumed suffix (the look-ahead consumes nothing). -/
def matchName (company v r3 : List Char) :
    Option ((List Char × List Char × List Char) × List Char) :=
  let n := r3.takeWhile notCRLF
  let r4 := r3.dropWhile notCRLF
  if n.length = 0 then none
  else
    match r4 with
    | [] => some ((company, v, n), [])
    | '\n' :: t => some ((company, v, n), '\n' :: t)
    | '\r' :: '\n' :: t => some ((company, v, n), '\r' :: '\n' :: t)
    | _ => none

/-- Give-back search of the second `\s+`: try `matchName` with the name
starting after `k` consumed whitespace characters of `r2`, for
`k = kmax, kmax - 1, …, 1` (the greedy engine's order); `0` remaining
means no `k ≥ 1` succeeded, and `\s+` itself needs at least one
character. -/
def nameBacktrack (company v r2 : List Char) :
    Nat → Option ((List Char × List Char × List Char) × List Char)
  | 0 => none
  | k + 1 =>
    match matchName company v (r2.drop (k + 1)) with
    | some res => some res
    | none => nameBacktrack company v r2 k

/-- Second `\s+` of the pattern: `r2` follows the vendor group; the greedy
`\s+` first takes the whole whitespace run, then gives characters back one
at a time (every amount it can take is a prefix of that run). -/
def matchAfterVendor (company v r2 : List Char) :
    Option ((List Char × List Char × List Char) × List Char) :=
  nameBacktrack company v r2 (r2.takeWhile isWs).length

/-- `(?P<vendor>[^\s]{3,40})`: the whole non-whitespace run starting `r1`,
which must have length 3–40. -/
def matchVendor (company r1 : List Char) :
    Option ((List Char × List Char × List Char) × List Char) :=
  let v := r1.takeWhile (fun c => !isWs c)
  if 3 ≤ v.length ∧ v.length ≤ 40 then
    matchAfterVendor company v (r1.dropWhile (fun c => !isWs c))
  else none

/-- First `\s+` of the pattern, following the company group. -/
def matchAfterCompany (company rest : List Char) :
    Option ((List Char × List Char × List Char) × List Char) :=
  if (rest.takeWhile isWs).length = 0 then none
  else matchVendor company (rest.dropWhile isWs)

/-- Attempt of `_TRIPLET_REGEX` anchored at the start of `s`:
`(?P<company>[A-Z]{2}\d{2})` then the later stages. -/
def matchAt (s : List Char) :
    Option ((List Char × List Char × List Char) × List Char) :=
  match s with
  | c1 :: c2 :: d1 :: d2 :: rest =>
    if isUpper c1 && isUpper c2 && isDigitC d1 && isDigitC d2 then
      matchAfterCompany [c1, c2, d1, d2] rest
    else none
  | _ => none

/-- `re.finditer` scan: try a match at every position left to right; on a
match, resume after its end (every match consumes at least ten characters,
so the scan needs at most `length` steps — the fuel argument). -/
def finditerAux : Nat → List Char →
    List (List Char × List Char × List Char)
  | 0, _ => []
  | _ + 1, [] => []
  | fuel + 1, c :: rest =>
    match matchAt (c :: rest) with
    | some (t, r) => t :: finditerAux fuel r
    | none => finditerAux fuel rest

/-- All matches of `_TRIPLET_REGEX` in `s`, raw (pre-post-processing) groups. -/
def finditerTriplets (s : List Char) : List (List Char × List Char × List Char) :=
  finditerAux s.length s

/-!  ## Text Normalizer — `html_to_text` (outlook_mapi.py lines 123–136)

```python
def html_to_text(html):
    if not html:
        return ""
    txt = re.sub(r"(?i)<\s*br\s*/?\s*>", "\n", html)
    txt = re.sub(r"(?i)</\s*p\s*>", "\n", txt)
    txt = re.sub(r"(?i)<\s*p[^>]*>", "", txt)
    txt = re.sub(r"(?s)<[^>]+>", " ", txt)
    txt = re.sub(r"[ \t]+", " ", txt).strip()
    return txt
```

Each pattern is matched by a deterministic scanner (greedy runs taken
whole; for these patterns a shorter take always fails the next pattern
element, so backtracking never finds another match).  None of the patterns
can match the empty string, so `re.sub`'s empty-match rules never apply,
and the scan needs at most `length` steps of fuel. -/

/-- `(?i)<\s*br\s*/?\s*>` anchored at the start; returns the unconsumed
suffix on a match. -/
def tryBr (l : List Char) : Option (List Char) :=
  match l with
  | '<' :: r =>
    match r.dropWhile isWs with
    | b :: rb =>
      if charLower b == 'b' then
        match rb with
        | rc :: rr =>
          if charLower rc == 'r' then
            let r2 := rr.dropWhile isWs
            let r3 := match r2 with
              | '/' :: t => t
              | _ => r2
            match r3.dropWhile isWs with
            | '>' :: t => some t
            | _ => none
          else none
        | [] => none
      else none
    | [] => none
  | _ => none

/-- `(?i)</\s*p\s*>` anchored at the start. -/
def tryPClose (l : List Char) : Option (List Char) :=
  match l with
  | '<' :: '/' :: r =>
    match r.dropWhile isWs with
    | p :: rp =>
      if charLower p == 'p' then
        match rp.dropWhile isWs with
        | '>' :: t => some t
        | _ => none
      else none
    | [] => none
  | _ => none

/-- `(?i)<\s*p[^>]*>` anchored at the start. -/
def tryPOpen (l : List Char) : Option (List Char) :=
  match l with
  | '<' :: r =>
    match r.dropWhile isWs with
    | p :: rp =>
      if charLower p == 'p' then
        match rp.dropWhile (fun c => c != '>') with
        | '>' :: t => some t
        | _ => none
      else none
    | [] => none
  | _ => none

/-- `(?s)<[^>]+>` anchored at the start. -/
def tryTag (l : List Char) : Option (List Char) :=
  match l with
  | '<' :: c :: r =>
    if c == '>' then none
    else
      match (c :: r).dropWhile (fun ch => ch != '>') with
      | '>' :: t => some t
      | _ => none
  | _ => none

/-- `[ \t]+` anchored at the start (greedy maximal run). -/
def tryHWs (l : List Char) : Option (List Char) :=
  match l with
  | c :: rest =>
    if c == ' ' || c == '\t' then
      some (rest.dropWhile (fun ch => ch == ' ' || ch == '\t'))
    else none
  | [] => none

/-- `re.sub(pattern, repl, ·)` for a pattern given by an anchored matcher
`try_` that always consumes at least one character on success: scan left to
right, splicing in `repl` at each match. -/
def substAux (try_ : List Char → Option (List Char)) (repl : List Char) :
    Nat → List Char → List Char
  | 0, l => l
  | _ + 1, [] => []
  | fuel + 1, c :: rest =>
    match try_ (c :: rest) with
    | some r => repl ++ substAux try_ repl fuel r
    | none => c :: substAux try_ repl fuel rest

/-- `str.strip()` (ASCII whitespace, both ends). -/
def stripWs (l : List Char) : List Char :=
  ((l.dropWhile isWs).reverse.dropWhile isWs).reverse

/-- `re.sub(r"\s+", " ", name)`: every maximal whitespace run becomes one
space. -/
def collapseWs : List Char → List Char
  | [] => []
  | [c] => if isWs c then [' '] else [c]
  | c1 :: c2 :: rest =>
    if isWs c1 && isWs c2 then collapseWs (c2 :: rest)
    else if isWs c1 then ' ' :: collapseWs (c2 :: rest)
    else c1 :: collapseWs (c2 :: rest)

/-- The characters of `str.strip(" -|")`. -/
def isSep (c : Char) : Bool := c == ' ' || c == '-' || c == '|'

/-- `str.strip(" -|")`: drop `' '`, `'-'`, `'|'` from both ends. -/
def stripSeps (l : List Char) : List Char :=
  ((l.dropWhile isSep).reverse.dropWhile isSep).reverse

/-- Post-processing of the `name` group in `extract_triplets_from_text`:
`name = m.group("name").strip()` then
`name = re.sub(r"\s+", " ", name).strip(" -|")`. -/
def postName (n : List Char) : List Char :=
  stripSeps (collapseWs (stripWs n))

/-- `extract_triplets_from_text` (lines 138–152) on a list of characters:
each raw match `(company, vendor, name)` becomes
`(company.strip(), vendor.strip(), postName name)`. -/
def extractTripletsL (text : List Char) : List (List Char × List Char × List Char) :=
  (finditerTriplets text).map (fun t => (stripWs t.1, stripWs t.2.1, postName t.2.2))

/-- `extract_triplets_from_text` on a `String`. -/
def extractTriplets (text : String) : List (String × String × String) :=
  (extractTripletsL text.data).map (fun t => (⟨t.1⟩, ⟨t.2.1⟩, ⟨t.2.2⟩))

/-- `html_to_text` on a list of characters.  (`if not html: return ""` is
definitionally satisfied: every stage maps `[]` to `[]`.) -/
def htmlToTextL (html : List Char) : List Char :=
  let t1 := substAux tryBr ['\n'] html.length html
  let t2 := substAux tryPClose ['\n'] t1.length t1
  let t3 := substAux tryPOpen [] t2.length t2
  let t4 := substAux tryTag [' '] t3.length t3
  let t5 := substAux tryHWs [' '] t4.length t4
  stripWs t5

/-- `html_to_text` on a `String`. -/
def htmlToText (html : String) : String := ⟨htmlToTextL html.data⟩

/-!  ## Result Assembler — `build_dataframe` (outlook_mapi.py lines 270–278)

```python
def build_dataframe(rows):
    df = pd.DataFrame(rows, columns=["company_code", "vendor_number", "name"])
    if not df.empty:
        df = df.drop_duplicates().reset_index(drop=True)
    return df
```
-/

/-- The pandas `DataFrame` of this pipeline: its column labels and its rows
(each row a `(company_code, vendor_number, name)` triple). -/
structure DataFrame where
  columns : List String
  rows : List (String × String × String)
deriving DecidableEq, Repr

/-- `DataFrame.drop_duplicates()` (default arguments): keep the first
occurrence of each distinct row, scanning in order with the set of rows
already seen. -/
def dropDuplicatesAux (seen : List (String × String × String)) :
    List (String × String × String) → List (String × String × String)
  | [] => []
  | r :: rest =>
    if r ∈ seen then dropDuplicatesAux seen rest
    else r :: dropDuplicatesAux (r :: seen) rest

/-- `build_dataframe`: the three fixed columns, with exact duplicate rows
dropped (keeping first occurrences; `reset_index(drop=True)` and the
`df.empty` guard do not change the rows). -/
def buildDataframe (rowsIn : List (String × String × String)) : DataFrame :=
  { columns := ["company_code", "vendor_number", "name"]
    rows := dropDuplicatesAux [] rowsIn }

/-!  ## Claim-side definitions (transcribed from the specification's words,
for comparison with the code-side definitions above) -/

/-- Transcription of the Result Assembler specification: "keep the first
occurrence of each distinct triplet; drop later exact duplicates". -/
def firstOccurrences : List (String × String × String) →
    List (String × String × String)
  | [] => []
  | r :: rest => r :: firstOccurrences (rest.filter (fun x => x ≠ r))
termination_by l => l.length
decreasing_by
  exact Nat.lt_succ_of_le (List.length_filter_le _ _)

/-- The lines of a text: pieces between `'\n'` separators, each with a
trailing `'\r'` removed (so both `"\n"` and `"\r\n"` break lines). -/
def splitNl : List Char → List (List Char)
  | [] => [[]]
  | c :: rest =>
    if c = '\n' then [] :: splitNl rest
    else
      match splitNl rest with
      | [] => [[c]]
      | l :: ls => (c :: l) :: ls

/-- Remove one trailing carriage return, if present. -/
def dropTrailCR (l : List Char) : List Char :=
  match l.getLast? with
  | some '\r' => l.dropLast
  | _ => l

/-- The lines of a string. -/
def linesOf (s : String) : List String :=
  (splitNl s.data).map (fun l => ⟨dropTrailCR l⟩)

/-- No two adjacent characters are both whitespace — the observable form of
"runs of whitespace collapsed to a single space". -/
def AdjacentWsFree (l : List Char) : Prop :=
  ∀ (l₁ l₂ : List Char) (c₁ c₂ : Char),
    l = l₁ ++ c₁ :: c₂ :: l₂ → ¬(isWs c₁ = true ∧ isWs c₂ = true)

/-- Shape of the raw groups captured by any successful `_TRIPLET_REGEX`
match: a 2-letter + 2-digit company code, a whitespace-free vendor token of
length 3–40, and a name free of carriage returns and line feeds. -/
def RawTripletOK (t : List Char × List Char × List Char) : Prop :=
  (∃ a b d e, t.1 = [a, b, d, e] ∧ isUpper a = true ∧ isUpper b = true ∧
      isDigitC d = true ∧ isDigitC e = true) ∧
  (3 ≤ t.2.1.length ∧ t.2.1.length ≤ 40 ∧ ∀ ch ∈ t.2.1, isWs ch = false) ∧
  (∀ ch ∈ t.2.2, notCRLF ch = true)

/-!  ## High-level entry point — `get_esker_vendor_updates_df` (lines 281–336)

The entry point rebinds the module-level names:

```python
global DEFAULT_SUBJECT_KEYWORDS, DEFAULT_SUBJECT_PHRASES
DEFAULT_SUBJECT_KEYWORDS = list(subject_keywords)
DEFAULT_SUBJECT_PHRASES = list(subject_phrases)
```

but `subject_matches` is called from `find_matching_emails_inbox` (line 245)
as `subject_matches(subject, min_keyword_hits=min_keyword_hits)`, without
keyword or phrase arguments.  Python evaluates default-argument expressions
once, when the `def` statement runs: the defaults of `subject_matches` are
the list objects the module-level names referred to at import time, and
rebinding those names later does not change them.  The embedding reflects
this binding-time rule: the module globals are explicit state, and the
captured defaults are the import-time values. -/

/-- The module-level globals that `get_esker_vendor_updates_df` rebinds. -/
structure ModuleGlobals where
  defaultSubjectKeywords : List String
  defaultSubjectPhrases : List String

/-- The globals as initialised at import time (lines 83–84). -/
def importTimeGlobals : ModuleGlobals :=
  { defaultSubjectKeywords := DEFAULT_SUBJECT_KEYWORDS
    defaultSubjectPhrases := DEFAULT_SUBJECT_PHRASES }

/-- The keyword/phrase defaults of `subject_matches`, captured from the
globals when its `def` statement ran — i.e. at import time. -/
def subjectMatchesDefaults : List String × List String :=
  (importTimeGlobals.defaultSubjectKeywords, importTimeGlobals.defaultSubjectPhrases)

/-- The classification applied to a message subject inside
`find_matching_emails_inbox` (line 245):
`subject_matches(subject, min_keyword_hits=min_keyword_hits)`.  The current
globals `g` are in scope but unused: the call passes no keyword or phrase
arguments, so the def-time captured defaults apply. -/
def findMatchingClassify (_g : ModuleGlobals) (minKeywordHits : Int)
    (subject : String) : Bool :=
  subjectMatchesStr subject subjectMatchesDefaults.1 subjectMatchesDefaults.2
    minKeywordHits

/-- The globals after the entry point's rebinding
`DEFAULT_SUBJECT_KEYWORDS = list(subject_keywords); ...` (lines 301–303). -/
def entryPointGlobals (subjectKeywords subjectPhrases : List String) :
    ModuleGlobals :=
  { defaultSubjectKeywords := subjectKeywords
    defaultSubjectPhrases := subjectPhrases }

/-- How `get_esker_vendor_updates_df(subject_keywords, subject_phrases,
min_subject_keyword_hits, ...)` classifies one message subject: it rebinds
the globals, then delegates to `find_matching_emails_inbox`. -/
def entryPointClassify (subjectKeywords subjectPhrases : List String)
    (minKeywordHits : Int) (subject : String) : Bool :=
  findMatchingClassify (entryPointGlobals subjectKeywords subjectPhrases)
    minKeywordHits subject

end EskerVendor


namespace EskerVendor

/-!  ## Lemmas on the Subject Classifier -/

/-- The phrase loop's early `return True` realises an existential over the
phrase list. -/
theorem phraseLoop_eq_true_iff (s : List Char) (phs : List (List Char)) :
    phraseLoop s phs = true ↔ ∃ ph ∈ phs, containsSub s (lowerL ph) = true := by
  induction phs with
  | nil => simp [phraseLoop]
  | cons ph rest ih =>
    by_cases h : containsSub s (lowerL ph) = true
    · simp [phraseLoop, h]
    · simp only [phraseLoop, if_neg h, ih, List.mem_cons]
      constructor
      · rintro ⟨q, hq, hc⟩
        exact ⟨q, Or.inr hq, hc⟩
      · rintro ⟨q, hq | hq, hc⟩
        · exact absurd (hq ▸ hc) h
        · exact ⟨q, hq, hc⟩

/-- The generator-sum of keyword hits counts the keyword entries that occur. -/
theorem kwHits_eq_countP (s : List Char) (kws : List (List Char)) :
    kwHits s kws = kws.countP (fun kw => containsSub s (lowerL kw)) := by
  induction kws with
  | nil => simp [kwHits]
  | cons kw rest ih =>
    simp only [kwHits, ih, List.countP_cons]
    by_cases h : containsSub s (lowerL kw) = true
    · simp [h]
      omega
    · simp [h]

end EskerVendor

namespace EskerVendor

/-- C1 as stated, instantiated at one input.  "Number of distinct keywords
occurring" is the count over the deduplicated keyword list; the code counts
keyword-list entries with multiplicity, so a duplicated keyword is counted
twice and the two sides disagree. -/
theorem C1_counterexample :
    ¬ (((∃ ph ∈ ([] : List String),
           containsSub (lowerL "xax".data) (lowerL ph.data) = true) →
         subjectMatchesStr "xax" ["a", "a"] [] 2 = true) ∧
       (¬ (∃ ph ∈ ([] : List String),
             containsSub (lowerL "xax".data) (lowerL ph.data) = true) →
         (subjectMatchesStr "xax" ["a", "a"] [] 2 = true ↔
           ((((["a", "a"] : List String).dedup).countP
               (fun kw => containsSub (lowerL "xax".data) (lowerL kw.data)) : Int) ≥
             2)))) := by
  decide

end EskerVendor

namespace EskerVendor

/-- C1 (amended): for every subject, keyword list, phrase list and threshold,
the classifier returns true if any configured phrase occurs
(case-insensitively) as a substring of the subject, regardless of the
threshold; otherwise it returns true exactly when the number of keyword-list
entries occurring (case-insensitively) as substrings of the subject —
counted with multiplicity, not deduplicated — is at least the threshold.
With the default configuration, "FW: Esker Vendor Update - Batch 12"
classifies as true and "Random Newsletter" classifies as false. -/
theorem C1_subject_classifier :
    (∀ (subject : String) (kws phs : List String) (t : Int),
      ((∃ ph ∈ phs, containsSub (lowerL subject.data) (lowerL ph.data) = true) →
        subjectMatchesStr subject kws phs t = true) ∧
      (¬ (∃ ph ∈ phs, containsSub (lowerL subject.data) (lowerL ph.data) = true) →
        (subjectMatchesStr subject kws phs t = true ↔
          ((kws.countP
              (fun kw => containsSub (lowerL subject.data) (lowerL kw.data)) : Int) ≥
            t))))
    ∧ subjectMatchesStr "FW: Esker Vendor Update - Batch 12"
        DEFAULT_SUBJECT_KEYWORDS DEFAULT_SUBJECT_PHRASES 1 = true
    ∧ subjectMatchesStr "Random Newsletter"
        DEFAULT_SUBJECT_KEYWORDS DEFAULT_SUBJECT_PHRASES 1 = false := by
  refine ⟨fun subject kws phs t => ?_, by decide, by decide⟩
  have hph : phraseLoop (lowerL subject.data) (phs.map String.data) = true ↔
      ∃ ph ∈ phs, containsSub (lowerL subject.data) (lowerL ph.data) = true := by
    rw [phraseLoop_eq_true_iff]
    constructor
    · rintro ⟨q, hq, hc⟩
      rcases List.mem_map.mp hq with ⟨ph, hph, rfl⟩
      exact ⟨ph, hph, hc⟩
    · rintro ⟨ph, hmem, hc⟩
      exact ⟨ph.data, List.mem_map.mpr ⟨ph, hmem, rfl⟩, hc⟩
  have hkw : kwHits (lowerL subject.data) (kws.map String.data) =
      kws.countP (fun kw => containsSub (lowerL subject.data) (lowerL kw.data)) := by
    rw [kwHits_eq_countP, List.countP_map]
    rfl
  constructor
  · intro hex
    unfold subjectMatchesStr subjectMatchesL
    simp only [hph.mpr hex, if_true]
  · intro hnex
    have hfalse : phraseLoop (lowerL subject.data) (phs.map String.data) = false := by
      rcases h : phraseLoop (lowerL subject.data) (phs.map String.data)
      · rfl
      · exact absurd (hph.mp h) hnex
    unfold subjectMatchesStr subjectMatchesL
    simp only [hfalse, if_false, hkw, ge_iff_le, decide_eq_true_eq, Bool.false_eq_true]

/-- Witness for `C1_subject_classifier`: its phrase-hit hypothesis discharged
at a concrete subject and phrase list. -/
theorem C1_subject_classifier_witness :
    (∃ ph ∈ (["esker vendor"] : List String),
      containsSub (lowerL "x esker vendor y".data) (lowerL ph.data) = true) ∧
    subjectMatchesStr "x esker vendor y" [] ["esker vendor"] 5 = true :=
  ⟨by decide,
   (C1_subject_classifier.1 "x esker vendor y" [] ["esker vendor"] 5).1 (by decide)⟩

end EskerVendor

namespace EskerVendor

/-- C7: the classifier treats a null subject exactly as the empty string
(for every configuration), and with the default keyword/phrase configuration
a null or empty subject classifies as true exactly when the (non-negative)
keyword-hit threshold is 0. -/
theorem C7_null_subject (t : Int) (ht : 0 ≤ t) :
    (∀ (kws phs : List String),
      subjectMatchesOpt none kws phs t = subjectMatchesOpt (some "") kws phs t)
    ∧ (subjectMatchesOpt none DEFAULT_SUBJECT_KEYWORDS DEFAULT_SUBJECT_PHRASES t =
          true ↔ t = 0)
    ∧ (subjectMatchesOpt (some "") DEFAULT_SUBJECT_KEYWORDS DEFAULT_SUBJECT_PHRASES t =
          true ↔ t = 0) := by
  have h0 : subjectMatchesOpt none DEFAULT_SUBJECT_KEYWORDS DEFAULT_SUBJECT_PHRASES t =
      decide ((0 : Int) ≥ t) := rfl
  refine ⟨fun kws phs => rfl, ?_, ?_⟩
  · rw [h0]
    simp only [ge_iff_le, decide_eq_true_eq]
    omega
  · rw [show subjectMatchesOpt (some "") DEFAULT_SUBJECT_KEYWORDS
        DEFAULT_SUBJECT_PHRASES t = decide ((0 : Int) ≥ t) from rfl]
    simp only [ge_iff_le, decide_eq_true_eq]
    omega

/-- Witness for `C7_null_subject` at threshold 0. -/
theorem C7_null_subject_witness :
    (0 : Int) ≤ 0 ∧
      ((∀ (kws phs : List String),
        subjectMatchesOpt none kws phs 0 = subjectMatchesOpt (some "") kws phs 0)
      ∧ (subjectMatchesOpt none DEFAULT_SUBJECT_KEYWORDS DEFAULT_SUBJECT_PHRASES 0 =
            true ↔ (0 : Int) = 0)
      ∧ (subjectMatchesOpt (some "") DEFAULT_SUBJECT_KEYWORDS
            DEFAULT_SUBJECT_PHRASES 0 = true ↔ (0 : Int) = 0)) :=
  ⟨by decide, C7_null_subject 0 (by decide)⟩

/-- C10: the `subject_keywords` and `subject_phrases` parameters of
`get_esker_vendor_updates_df` have no effect on classification: whatever
configurations are passed, each subject is classified with the import-time
default keyword and phrase lists, because `subject_matches` is invoked
without keyword/phrase arguments and its defaults were bound when its `def`
ran, before the entry point rebinds the module-level names. -/
theorem C10_defaults_ineffective :
    ∀ (kws₁ phs₁ kws₂ phs₂ : List String) (t : Int) (subject : String),
      entryPointClassify kws₁ phs₁ t subject = entryPointClassify kws₂ phs₂ t subject
      ∧ entryPointClassify kws₁ phs₁ t subject =
          subjectMatchesStr subject DEFAULT_SUBJECT_KEYWORDS DEFAULT_SUBJECT_PHRASES t :=
  fun _ _ _ _ _ _ => ⟨rfl, rfl⟩

end EskerVendor

namespace EskerVendor

/-!  ## Lemmas on the Result Assembler -/

/-- The seen-set scan of `drop_duplicates` agrees with the specification's
"keep the first occurrence, drop later duplicates" recursion, relative to
the rows not yet seen. -/
theorem dropDuplicatesAux_eq (l : List (String × String × String)) :
    ∀ seen, dropDuplicatesAux seen l =
      firstOccurrences (l.filter (fun x => x ∉ seen)) := by
  induction l with
  | nil => intro seen; simp [dropDuplicatesAux, firstOccurrences]
  | cons r rest ih =>
    intro seen
    by_cases h : r ∈ seen
    · rw [show dropDuplicatesAux seen (r :: rest) = dropDuplicatesAux seen rest from
        by simp [dropDuplicatesAux, h]]
      rw [ih seen]
      congr 1
      simp [List.filter_cons, h]
    · rw [show dropDuplicatesAux seen (r :: rest) =
          r :: dropDuplicatesAux (r :: seen) rest from by simp [dropDuplicatesAux, h]]
      rw [ih (r :: seen)]
      have hfil : rest.filter (fun x => x ∉ r :: seen) =
          (rest.filter (fun x => x ∉ seen)).filter (fun x => x ≠ r) := by
        rw [List.filter_filter]
        apply List.filter_congr
        intro x _
        by_cases h1 : x = r
        · simp [h1]
        · by_cases h2 : x ∈ seen
          · simp [h1, h2]
          · simp [h1, h2]
      rw [hfil]
      rw [show (r :: rest).filter (fun x => x ∉ seen) =
          r :: rest.filter (fun x => x ∉ seen) from by simp [List.filter_cons, h]]
      rw [firstOccurrences]

/-- Everything kept by `firstOccurrences` came from the input. -/
theorem mem_of_mem_firstOccurrences {x : String × String × String} :
    ∀ {l : List (String × String × String)}, x ∈ firstOccurrences l → x ∈ l := by
  intro l
  induction l using firstOccurrences.induct with
  | case1 => intro h; exact absurd h (by simp [firstOccurrences])
  | case2 r rest ih =>
    intro h
    rw [firstOccurrences] at h
    rcases List.mem_cons.mp h with h | h
    · exact h ▸ List.mem_cons_self r rest
    · exact List.mem_cons_of_mem r (List.mem_of_mem_filter (ih h))

/-- `firstOccurrences` never keeps a row twice. -/
theorem firstOccurrences_nodup :
    ∀ (l : List (String × String × String)), (firstOccurrences l).Nodup := by
  intro l
  induction l using firstOccurrences.induct with
  | case1 => simp [firstOccurrences]
  | case2 r rest ih =>
    rw [firstOccurrences]
    refine List.nodup_cons.mpr ⟨fun hmem => ?_, ih⟩
    have := List.of_mem_filter (mem_of_mem_firstOccurrences hmem)
    simp at this

/-- On an input with no duplicates, `firstOccurrences` keeps every row. -/
theorem firstOccurrences_eq_self :
    ∀ {l : List (String × String × String)}, l.Nodup → firstOccurrences l = l := by
  intro l
  induction l using firstOccurrences.induct with
  | case1 => intro _; simp [firstOccurrences]
  | case2 r rest ih =>
    intro hnd
    rcases List.nodup_cons.mp hnd with ⟨hr, hrest⟩
    have hfil : rest.filter (fun x => x ≠ r) = rest :=
      List.filter_eq_self.mpr (fun x hx => by
        simp only [ne_eq, decide_eq_true_eq]
        exact fun hxr => hr (hxr ▸ hx))
    rw [hfil] at ih
    rw [firstOccurrences, hfil, ih hrest]

/-- C5: `build_dataframe` keeps exactly the first occurrence of each
distinct `(companyCode, vendorNumber, name)` triplet, drops later exact
duplicates, preserves first-seen order, and on the empty input returns a
result with the three columns and no rows. -/
theorem C5_result_assembler :
    ∀ (rows : List (String × String × String)),
      buildDataframe rows =
        { columns := ["company_code", "vendor_number", "name"]
          rows := firstOccurrences rows }
      ∧ buildDataframe [] =
        { columns := ["company_code", "vendor_number", "name"], rows := [] } := by
  intro rows
  constructor
  · have h1 : rows.filter (fun x => x ∉ ([] : List (String × String × String))) =
        rows := List.filter_eq_self.mpr (fun x _ => by simp)
    unfold buildDataframe
    rw [dropDuplicatesAux_eq, h1]
  · rfl

/-- C8: deduplication is idempotent — assembling the rows of an assembled
result changes nothing. -/
theorem C8_dedup_idempotent :
    ∀ (rows : List (String × String × String)),
      buildDataframe ((buildDataframe rows).rows) = buildDataframe rows := by
  intro rows
  have hfil : ∀ (l : List (String × String × String)),
      l.filter (fun x => x ∉ ([] : List (String × String × String))) = l := by
    intro l
    apply List.filter_eq_self.mpr
    intro x _
    simp
  unfold buildDataframe
  simp only [dropDuplicatesAux_eq, hfil]
  rw [firstOccurrences_eq_self (firstOccurrences_nodup rows)]

end EskerVendor

namespace EskerVendor

/-- C6: on the given two-line input, the Triplet Extractor returns exactly
the two expected records, in order. -/
theorem C6_two_line_extraction :
    extractTriplets
        "SG77 1000338436 SPEEDYLINK LOGISTICS SDN BHD\nSG80 1000445566 ACME TRADING PTE LTD" =
      [("SG77", "1000338436", "SPEEDYLINK LOGISTICS SDN BHD"),
       ("SG80", "1000445566", "ACME TRADING PTE LTD")] := by
  decide

/-- C9: triplet extraction is deterministic — two invocations on the same
text return identical result sequences (the extractor is a pure function of
its input). -/
theorem C9_extraction_deterministic :
    ∀ (t₁ t₂ : String), t₁ = t₂ → extractTriplets t₁ = extractTriplets t₂ :=
  fun _ _ h => h ▸ rfl

/-- Witness for `C9_extraction_deterministic` at a concrete text. -/
theorem C9_extraction_deterministic_witness :
    "SG77 1000338436 ACME" = "SG77 1000338436 ACME" ∧
      extractTriplets "SG77 1000338436 ACME" =
        extractTriplets "SG77 1000338436 ACME" :=
  ⟨rfl, C9_extraction_deterministic "SG77 1000338436 ACME" "SG77 1000338436 ACME" rfl⟩

end EskerVendor

namespace EskerVendor

/-!  ## Lemmas on the Triplet Extractor -/

/-- A successful `matchName` returns the given company and vendor and the
`[^\r\n]` run at the start of `r3` as the name. -/
theorem matchName_some_inv {company v r3 : List Char}
    {t : List Char × List Char × List Char} {r : List Char}
    (h : matchName company v r3 = some (t, r)) :
    t = (company, v, r3.takeWhile notCRLF) := by
  unfold matchName at h
  simp only [] at h
  split at h
  · exact absurd h (by simp)
  · split at h <;> simp_all

/-- Every give-back attempt that succeeds keeps the given company and
vendor and yields a CR/LF-free name. -/
theorem nameBacktrack_some_inv {company v r2 : List Char} :
    ∀ {k : Nat} {t : List Char × List Char × List Char} {r : List Char},
      nameBacktrack company v r2 k = some (t, r) →
      t.1 = company ∧ t.2.1 = v ∧ ∀ ch ∈ t.2.2, notCRLF ch = true := by
  intro k
  induction k with
  | zero => intro t r h; exact absurd h (by simp [nameBacktrack])
  | succ k ih =>
    intro t r h
    rcases hm : matchName company v (r2.drop (k + 1)) with _ | ⟨t0, r0⟩
    · rw [nameBacktrack, hm] at h
      exact ih h
    · rw [nameBacktrack, hm] at h
      simp only [Option.some.injEq, Prod.mk.injEq] at h
      obtain ⟨rfl, rfl⟩ := h
      have ht := matchName_some_inv hm
      subst ht
      exact ⟨rfl, rfl, fun ch hch => List.mem_takeWhile_imp hch⟩

/-- A successful `matchAfterVendor` keeps company and vendor and yields a
CR/LF-free name. -/
theorem matchAfterVendor_some_inv {company v r2 : List Char}
    {t : List Char × List Char × List Char} {r : List Char}
    (h : matchAfterVendor company v r2 = some (t, r)) :
    t.1 = company ∧ t.2.1 = v ∧ ∀ ch ∈ t.2.2, notCRLF ch = true := by
  unfold matchAfterVendor at h
  exact nameBacktrack_some_inv h

/-- A successful `matchVendor` yields a whitespace-free vendor of length
3–40 and a CR/LF-free name. -/
theorem matchVendor_some_inv {company r1 : List Char}
    {t : List Char × List Char × List Char} {r : List Char}
    (h : matchVendor company r1 = some (t, r)) :
    t.1 = company ∧ (3 ≤ t.2.1.length ∧ t.2.1.length ≤ 40 ∧
      ∀ ch ∈ t.2.1, isWs ch = false) ∧ ∀ ch ∈ t.2.2, notCRLF ch = true := by
  unfold matchVendor at h
  simp only [] at h
  split at h
  case isTrue hlen =>
    obtain ⟨h1, h2, h3⟩ := matchAfterVendor_some_inv h
    refine ⟨h1, ⟨h2 ▸ hlen.1, h2 ▸ hlen.2, ?_⟩, h3⟩
    intro ch hch
    have := List.mem_takeWhile_imp (h2 ▸ hch)
    simpa using this
  case isFalse => exact absurd h (by simp)

/-- A successful `matchAfterCompany` keeps the company and yields
well-shaped vendor and name. -/
theorem matchAfterCompany_some_inv {company rest : List Char}
    {t : List Char × List Char × List Char} {r : List Char}
    (h : matchAfterCompany company rest = some (t, r)) :
    t.1 = company ∧ (3 ≤ t.2.1.length ∧ t.2.1.length ≤ 40 ∧
      ∀ ch ∈ t.2.1, isWs ch = false) ∧ ∀ ch ∈ t.2.2, notCRLF ch = true := by
  unfold matchAfterCompany at h
  split at h
  · exact absurd h (by simp)
  · exact matchVendor_some_inv h

/-- Any successful anchored match produces well-shaped raw groups. -/
theorem matchAt_some_inv {s : List Char}
    {t : List Char × List Char × List Char} {r : List Char}
    (h : matchAt s = some (t, r)) : RawTripletOK t := by
  unfold matchAt at h
  split at h
  case h_1 c1 c2 d1 d2 rest =>
    split at h
    case isTrue hc =>
      simp only [Bool.and_eq_true] at hc
      obtain ⟨h1, h2, h3⟩ := matchAfterCompany_some_inv h
      exact ⟨⟨c1, c2, d1, d2, h1, hc.1.1.1, hc.1.1.2, hc.1.2, hc.2⟩, h2, h3⟩
    case isFalse => exact absurd h (by simp)
  case h_2 => exact absurd h (by simp)

/-- Every raw triplet produced by the `finditer` scan is well shaped. -/
theorem finditerAux_ok :
    ∀ (fuel : Nat) (s : List Char), ∀ t ∈ finditerAux fuel s, RawTripletOK t := by
  intro fuel
  induction fuel with
  | zero => intro s t ht; exact absurd ht (by simp [finditerAux])
  | succ fuel ih =>
    intro s t ht
    match s with
    | [] => exact absurd ht (by simp [finditerAux])
    | c :: rest =>
      rcases hm : matchAt (c :: rest) with _ | ⟨t0, r⟩
      · rw [finditerAux, hm] at ht
        exact ih rest t ht
      · rw [finditerAux, hm] at ht
        rcases List.mem_cons.mp ht with rfl | ht
        · exact matchAt_some_inv hm
        · exact ih r t ht

end EskerVendor

namespace EskerVendor

/-!  ## Lemmas on the name post-processing -/

/-- A whitespace character is one of the six ASCII whitespace characters. -/
theorem ws_char_cases {c : Char} (h : isWs c = true) :
    c = ' ' ∨ c = '\t' ∨ c = '\n' ∨ c = '\r' ∨ c = '\x0b' ∨ c = '\x0c' := by
  simpa [isWs, or_assoc] using h

/-- Uppercase ASCII letters are not whitespace. -/
theorem upper_not_ws {c : Char} (h : isUpper c = true) : isWs c = false := by
  rcases hw : isWs c
  · rfl
  · rcases ws_char_cases hw with rfl | rfl | rfl | rfl | rfl | rfl <;>
      exact absurd h (by decide)

/-- ASCII digits are not whitespace. -/
theorem digit_not_ws {c : Char} (h : isDigitC c = true) : isWs c = false := by
  rcases hw : isWs c
  · rfl
  · rcases ws_char_cases hw with rfl | rfl | rfl | rfl | rfl | rfl <;>
      exact absurd h (by decide)

/-- `dropWhile` does nothing on a list none of whose elements satisfy the
predicate. -/
theorem dropWhile_eq_self_of {p : Char → Bool} {l : List Char}
    (h : ∀ c ∈ l, p c = false) : l.dropWhile p = l := by
  cases l with
  | nil => rfl
  | cons c t => simp [List.dropWhile_cons, h c (List.mem_cons_self c t)]

/-- `str.strip()` does nothing on a list free of whitespace. -/
theorem stripWs_eq_self {l : List Char} (h : ∀ c ∈ l, isWs c = false) :
    stripWs l = l := by
  unfold stripWs
  rw [dropWhile_eq_self_of h, dropWhile_eq_self_of
    (fun c hc => h c (List.mem_reverse.mp hc)), List.reverse_reverse]

/-- Collapsing starting with a non-whitespace character keeps it. -/
theorem collapseWs_cons_not_ws {c : Char} {l : List Char} (hc : isWs c = false) :
    collapseWs (c :: l) = c :: collapseWs l := by
  cases l with
  | nil => simp [collapseWs, hc]
  | cons c2 rest => simp [collapseWs, hc]

/-- Every whitespace character surviving `re.sub(r"\s+", " ", ·)` is a
single space. -/
theorem collapseWs_ws_eq_space :
    ∀ (l : List Char), ∀ ch ∈ collapseWs l, isWs ch = true → ch = ' ' := by
  intro l
  induction l with
  | nil => simp [collapseWs]
  | cons c rest ih =>
    intro ch hch hw
    rcases hc : isWs c
    · rw [collapseWs_cons_not_ws hc] at hch
      rcases List.mem_cons.mp hch with rfl | hch
      · exact absurd hw (by simp [hc])
      · exact ih ch hch hw
    · cases rest with
      | nil =>
        simp only [collapseWs, hc, if_true] at hch
        simpa using hch
      | cons c2 rest2 =>
        rcases hc2 : isWs c2
        · rw [show collapseWs (c :: c2 :: rest2) = ' ' :: collapseWs (c2 :: rest2) from
            by simp [collapseWs, hc, hc2]] at hch
          rcases List.mem_cons.mp hch with rfl | hch
          · rfl
          · exact ih ch hch hw
        · rw [show collapseWs (c :: c2 :: rest2) = collapseWs (c2 :: rest2) from
            by simp [collapseWs, hc, hc2]] at hch
          exact ih ch hch hw

/-- The empty list has no adjacent whitespace pair. -/
theorem adjFree_nil : AdjacentWsFree [] := by
  intro l1 l2 c1 c2 h
  exact absurd h (by simp)

/-- A singleton has no adjacent whitespace pair. -/
theorem adjFree_singleton (c : Char) : AdjacentWsFree [c] := by
  intro l1 l2 c1 c2 h
  have := congrArg List.length h
  simp at this
  omega

/-- Extending an adjacent-whitespace-free list with a head that does not
form a whitespace pair with the next character. -/
theorem adjFree_cons {x : Char} {xs : List Char}
    (hx : ∀ y t, xs = y :: t → ¬(isWs x = true ∧ isWs y = true))
    (h : AdjacentWsFree xs) : AdjacentWsFree (x :: xs) := by
  intro l1 l2 c1 c2 heq
  cases l1 with
  | nil =>
    simp only [List.nil_append, List.cons.injEq] at heq
    exact heq.1 ▸ hx c2 l2 heq.2
  | cons a l1' =>
    simp only [List.cons_append, List.cons.injEq] at heq
    exact h l1' l2 c1 c2 heq.2

/-- The output of `re.sub(r"\s+", " ", ·)` never has two adjacent
whitespace characters. -/
theorem collapseWs_adjFree : ∀ (l : List Char), AdjacentWsFree (collapseWs l) := by
  intro l
  induction l with
  | nil => exact adjFree_nil
  | cons c rest ih =>
    rcases hc : isWs c
    · rw [collapseWs_cons_not_ws hc]
      refine adjFree_cons (fun y t hyt => ?_) ih
      simp [hc]
    · cases rest with
      | nil =>
        simp only [collapseWs, hc, if_true]
        exact adjFree_singleton ' '
      | cons c2 rest2 =>
        rcases hc2 : isWs c2
        · rw [show collapseWs (c :: c2 :: rest2) = ' ' :: collapseWs (c2 :: rest2) from
            by simp [collapseWs, hc, hc2]]
          refine adjFree_cons (fun y t hyt => ?_) ih
          rw [collapseWs_cons_not_ws hc2] at hyt
          rw [show y = c2 from (List.cons.injEq _ _ _ _ ▸ hyt).1.symm]
          simp [hc2]
        · rw [show collapseWs (c :: c2 :: rest2) = collapseWs (c2 :: rest2) from
            by simp [collapseWs, hc, hc2]]
          exact ih

/-- Suffixes of an adjacent-whitespace-free list are adjacent-whitespace
free. -/
theorem adjFree_append_right (pre : List Char) {suf : List Char}
    (h : AdjacentWsFree (pre ++ suf)) : AdjacentWsFree suf := by
  intro l1 l2 c1 c2 heq
  exact h (pre ++ l1) l2 c1 c2 (by rw [heq, List.append_assoc])

/-- `dropWhile` preserves freedom from adjacent whitespace pairs. -/
theorem adjFree_dropWhile (p : Char → Bool) {l : List Char}
    (h : AdjacentWsFree l) : AdjacentWsFree (l.dropWhile p) := by
  refine adjFree_append_right (l.takeWhile p) ?_
  rw [List.takeWhile_append_dropWhile]
  exact h

/-- Reversal preserves freedom from adjacent whitespace pairs. -/
theorem adjFree_reverse {l : List Char} (h : AdjacentWsFree l) :
    AdjacentWsFree l.reverse := by
  intro l1 l2 c1 c2 heq
  have hrev : l = l2.reverse ++ c2 :: c1 :: l1.reverse := by
    have h2 := congrArg List.reverse heq
    simpa [List.reverse_append] using h2
  rintro ⟨h1, h2⟩
  exact h l2.reverse l1.reverse c2 c1 hrev ⟨h2, h1⟩

/-- The post-processed name has no adjacent whitespace pair. -/
theorem postName_adjFree (n : List Char) : AdjacentWsFree (postName n) := by
  unfold postName stripSeps
  exact adjFree_reverse (adjFree_dropWhile _
    (adjFree_reverse (adjFree_dropWhile _ (collapseWs_adjFree _))))

/-- Characters of the post-processed name come from the collapse stage. -/
theorem mem_postName_subset {n : List Char} {ch : Char}
    (h : ch ∈ postName n) : ch ∈ collapseWs (stripWs n) := by
  unfold postName stripSeps at h
  rw [List.mem_reverse] at h
  have h2 := (List.dropWhile_suffix isSep).sublist.subset h
  rw [List.mem_reverse] at h2
  exact (List.dropWhile_suffix isSep).sublist.subset h2

/-- Every whitespace character in the post-processed name is a space. -/
theorem postName_ws_eq_space (n : List Char) :
    ∀ ch ∈ postName n, isWs ch = true → ch = ' ' :=
  fun ch hch hw => collapseWs_ws_eq_space _ ch (mem_postName_subset hch) hw

end EskerVendor

namespace EskerVendor

/-- The head of a `dropWhile` result does not satisfy the dropped
predicate. -/
theorem head_dropWhile_false {p : Char → Bool} :
    ∀ {l : List Char} {c : Char}, (l.dropWhile p).head? = some c → p c = false := by
  intro l
  induction l with
  | nil => intro c h; exact absurd h (by simp)
  | cons x t ih =>
    intro c h
    rcases hp : p x
    · rw [List.dropWhile_cons, hp] at h
      simp only [Bool.false_eq_true, if_false, List.head?_cons, Option.some.injEq] at h
      exact h ▸ hp
    · rw [List.dropWhile_cons, hp] at h
      simp only [if_true] at h
      exact ih h

/-- Dropping a non-empty prefix-scan keeps the last element. -/
theorem getLast?_dropWhile {p : Char → Bool} :
    ∀ {l : List Char}, l.dropWhile p ≠ [] → (l.dropWhile p).getLast? = l.getLast? := by
  intro l
  induction l with
  | nil => intro h; exact absurd rfl h
  | cons x t ih =>
    intro h
    rcases hp : p x
    · rw [List.dropWhile_cons, hp]
      simp
    · rw [List.dropWhile_cons, hp] at h ⊢
      simp only [if_true] at h ⊢
      have ht : t ≠ [] := by
        intro heq
        rw [heq] at h
        exact h rfl
      rcases t with _ | ⟨y, t2⟩
      · exact absurd rfl ht
      · rw [List.getLast?_cons_cons]
        exact ih h

/-- The first character of `str.strip(" -|")`'s result, if any, is not a
stripped separator. -/
theorem stripSeps_head_not_sep {l : List Char} {c : Char}
    (h : (stripSeps l).head? = some c) : isSep c = false := by
  unfold stripSeps at h
  rw [List.head?_reverse] at h
  have hne : (((l.dropWhile isSep).reverse).dropWhile isSep) ≠ [] := by
    intro heq
    rw [heq] at h
    exact absurd h (by simp)
  rw [getLast?_dropWhile hne, List.getLast?_reverse] at h
  exact head_dropWhile_false h

/-- The last character of `str.strip(" -|")`'s result, if any, is not a
stripped separator. -/
theorem stripSeps_getLast_not_sep {l : List Char} {c : Char}
    (h : (stripSeps l).getLast? = some c) : isSep c = false := by
  unfold stripSeps at h
  rw [List.getLast?_reverse] at h
  exact head_dropWhile_false h

/-- C2: every record returned by the Triplet Extractor has a company code of
exactly two uppercase ASCII letters and two ASCII digits, a vendor token of
3–40 characters with no whitespace, and a name with no adjacent whitespace
(all surviving whitespace being single spaces) and no leading or trailing
`'-'`, `'|'` or space character. -/
theorem C2_record_invariants :
    ∀ (text : String) (r : String × String × String), r ∈ extractTriplets text →
      ((∃ a b d e, r.1.data = [a, b, d, e] ∧ isUpper a = true ∧ isUpper b = true ∧
          isDigitC d = true ∧ isDigitC e = true) ∧
       (3 ≤ r.2.1.data.length ∧ r.2.1.data.length ≤ 40 ∧
          ∀ ch ∈ r.2.1.data, isWs ch = false) ∧
       (AdjacentWsFree r.2.2.data ∧
        (∀ ch ∈ r.2.2.data, isWs ch = true → ch = ' ') ∧
        (∀ ch, r.2.2.data.head? = some ch → isSep ch = false) ∧
        (∀ ch, r.2.2.data.getLast? = some ch → isSep ch = false))) := by
  intro text r hr
  unfold extractTriplets at hr
  rcases List.mem_map.mp hr with ⟨t, ht, rfl⟩
  unfold extractTripletsL at ht
  rcases List.mem_map.mp ht with ⟨t0, ht0, rfl⟩
  obtain ⟨⟨a, b, d, e, hc, ha, hb, hd, he⟩, ⟨hv1, hv2, hv3⟩, _⟩ :=
    finditerAux_ok _ _ t0 ht0
  have hcomp : stripWs t0.1 = t0.1 := by
    refine stripWs_eq_self (fun c hcm => ?_)
    rw [hc] at hcm
    simp only [List.mem_cons, List.not_mem_nil, or_false] at hcm
    rcases hcm with rfl | rfl | rfl | rfl
    · exact upper_not_ws ha
    · exact upper_not_ws hb
    · exact digit_not_ws hd
    · exact digit_not_ws he
  have hvend : stripWs t0.2.1 = t0.2.1 := stripWs_eq_self hv3
  refine ⟨⟨a, b, d, e, ?_, ha, hb, hd, he⟩, ⟨?_, ?_, ?_⟩, ?_, ?_, ?_, ?_⟩
  · show stripWs t0.1 = [a, b, d, e]
    rw [hcomp, hc]
  · show 3 ≤ (stripWs t0.2.1).length
    rw [hvend]; exact hv1
  · show (stripWs t0.2.1).length ≤ 40
    rw [hvend]; exact hv2
  · show ∀ ch ∈ stripWs t0.2.1, isWs ch = false
    rw [hvend]; exact hv3
  · show AdjacentWsFree (postName t0.2.2)
    exact postName_adjFree _
  · show ∀ ch ∈ postName t0.2.2, isWs ch = true → ch = ' '
    exact postName_ws_eq_space _
  · show ∀ ch, (postName t0.2.2).head? = some ch → isSep ch = false
    exact fun ch h => stripSeps_head_not_sep h
  · show ∀ ch, (postName t0.2.2).getLast? = some ch → isSep ch = false
    exact fun ch h => stripSeps_getLast_not_sep h

/-- Witness for `C2_record_invariants`: its membership hypothesis discharged
at a concrete text and record. -/
theorem C2_record_invariants_witness :
    ("AB12", "123", "Some - Name") ∈ extractTriplets "AB12 123 | Some -  Name |\n" ∧
      (3 ≤ ("123" : String).data.length ∧ ("123" : String).data.length ≤ 40 ∧
        ∀ ch ∈ ("123" : String).data, isWs ch = false) :=
  ⟨by decide,
   (C2_record_invariants "AB12 123 | Some -  Name |\n" ("AB12", "123", "Some - Name")
      (by decide)).2.1⟩

end EskerVendor

namespace EskerVendor

/-- C3 as stated fails on the code: on `"AB12\n123 Name"` the extractor
returns a record even though no single line of the input produces it — the
`\s+` between the company code and the vendor number matched across the
line break. -/
theorem C3_counterexample :
    ¬ (∀ r ∈ extractTriplets "AB12\n123 Name",
        ∃ line ∈ linesOf "AB12\n123 Name", r ∈ extractTriplets line) := by
  decide

/-- C3 (amended): the inter-token whitespace of the pattern may span line
breaks (shown by the concrete cross-line input), but the name group is
confined to a single line: no returned name contains a line feed or a
carriage return. -/
theorem C3_names_single_line :
    (∀ (text : String) (r : String × String × String), r ∈ extractTriplets text →
      ∀ ch ∈ r.2.2.data, ch ≠ '\n' ∧ ch ≠ '\r') ∧
    extractTriplets "AB12\n123 Name" = [("AB12", "123", "Name")] := by
  constructor
  · intro text r hr ch hch
    unfold extractTriplets at hr
    rcases List.mem_map.mp hr with ⟨t, ht, rfl⟩
    unfold extractTripletsL at ht
    rcases List.mem_map.mp ht with ⟨t0, _, rfl⟩
    constructor
    · rintro rfl
      have := postName_ws_eq_space t0.2.2 _ hch (by decide)
      exact absurd this (by decide)
    · rintro rfl
      have := postName_ws_eq_space t0.2.2 _ hch (by decide)
      exact absurd this (by decide)
  · decide

/-- Witness for `C3_names_single_line`: its hypotheses discharged at the
concrete cross-line input. -/
theorem C3_names_single_line_witness :
    (("AB12", "123", "Name") ∈ extractTriplets "AB12\n123 Name") ∧
      ('N' ≠ '\n' ∧ 'N' ≠ '\r') :=
  ⟨by decide,
   C3_names_single_line.1 "AB12\n123 Name" ("AB12", "123", "Name") (by decide)
     'N' (by decide)⟩

/-- C4 as stated fails on the code: the normalizer turns `"</p><br>"` into
two newline characters (one for the `<br>`, one for the `</p>`), not one. -/
theorem C4_counterexample :
    htmlToText "<p>SG12 999AAA ABC Co</p><br>SG13 1000 XYZ Inc" ≠
      "SG12 999AAA ABC Co\nSG13 1000 XYZ Inc" := by
  decide

/-- C4 (amended): on the markup input the Text Normalizer produces
`"SG12 999AAA ABC Co"`, then two newlines, then `"SG13 1000 XYZ Inc"`, and
running the Triplet Extractor on that output yields exactly the two
expected records. -/
theorem C4_normalizer_extraction :
    htmlToText "<p>SG12 999AAA ABC Co</p><br>SG13 1000 XYZ Inc" =
      "SG12 999AAA ABC Co\n\nSG13 1000 XYZ Inc" ∧
    extractTriplets (htmlToText "<p>SG12 999AAA ABC Co</p><br>SG13 1000 XYZ Inc") =
      [("SG12", "999AAA", "ABC Co"), ("SG13", "1000", "XYZ Inc")] := by
  exact ⟨by decide, by decide⟩

end EskerVendor
